import Mathlib

/-!
Verification of the Connections-solver core (`src/connections`): a shallow
embedding of the data model (`models.py`), the candidate/revision generators
(`utils.py`) and the solver state machine (`solver.py`), together with
theorems settling the specification's claims about them.
-/

namespace Connections

/-- Words are opaque strings (`models.py`: puzzle words are `str`). -/
abbrev Word := String

/-- Model of `models.CategoryColor`. -/
inductive CategoryColor where
  | yellow
  | green
  | blue
  | purple
deriving DecidableEq

/-- Model of `models.CategorySolution`: a color, a theme and the category's 4 words. -/
structure CategorySolution where
  color : CategoryColor
  theme : String
  words : List Word
deriving DecidableEq

/-- Model of `models.DailyConnections`: the puzzle — a date, 16 words, 4 solutions. -/
structure DailyConnections where
  date : String
  words : List Word
  solutions : List CategorySolution
deriving DecidableEq

/-- A guess is a 4-tuple of words, as in the Python source
(`tuple[str, str, str, str]`). -/
abbrev Guess4 := Word × Word × Word × Word

/-- The words of a guess tuple, in tuple order (`list(prior_guess)`). -/
def guessList (g : Guess4) : List Word := [g.1, g.2.1, g.2.2.1, g.2.2.2]

/-- Model of `models.DailyConnectionsSolution`: the four solved categories in the
order they were solved. -/
structure DailyConnectionsSolution where
  category_1 : Guess4
  category_2 : Guess4
  category_3 : Guess4
  category_4 : Guess4
deriving DecidableEq

/-- The puzzle invariants guaranteed by the puzzle source boundary:
16 distinct words, 4 categories of 4 distinct words each, categories drawn
from the word list, pairwise disjoint, and jointly covering every word. -/
def ValidPuzzle (p : DailyConnections) : Prop :=
  p.words.Nodup ∧ p.words.length = 16 ∧ p.solutions.length = 4 ∧
  (∀ s ∈ p.solutions, s.words.length = 4 ∧ s.words.Nodup ∧
    ∀ w ∈ s.words, w ∈ p.words) ∧
  (∀ s₁ ∈ p.solutions, ∀ s₂ ∈ p.solutions, s₁ ≠ s₂ →
    ∀ w ∈ s₁.words, ¬ w ∈ s₂.words) ∧
  (∀ w ∈ p.words, ∃ s ∈ p.solutions, w ∈ s.words)

instance (p : DailyConnections) : Decidable (ValidPuzzle p) := by
  unfold ValidPuzzle; infer_instance

/-! ### `utils.py` -/

/-- Splitting a character list at every occurrence of `sep`, with Python
`str.split(sep)` semantics for a one-character separator: empty pieces are
kept, and the empty string splits to `[""]`. -/
def splitOnChar (sep : Char) : List Char → List (List Char)
  | [] => [[]]
  | c :: cs =>
    if c = sep then [] :: splitOnChar sep cs
    else
      match splitOnChar sep cs with
      | [] => [[c]]
      | h :: t => (c :: h) :: t

/-- Model of `utils.parse_category_string`: split the string on `','`; return the
4 parts as a tuple, or raise `ValueError` (modelled as `Except.error`)
when the split does not yield exactly 4 parts. -/
def parse_category_string (category : String) :
    Except String (String × String × String × String) :=
  match (splitOnChar ',' category.toList).map String.mk with
  | [a, b, c, d] => Except.ok (a, b, c, d)
  | _ =>
    Except.error ("Category must contain exactly 4 words, got: " ++ category)

/-- Python's `",".join` of a 4-tuple of strings. -/
def joinComma (a b c d : String) : String :=
  a ++ "," ++ b ++ "," ++ c ++ "," ++ d

/-- The words used by previous correct guesses
(`used_words = {word for guess in correct_guesses for word in guess}`);
modelled as a list, used only through membership. -/
def usedWords (correct_guesses : List Guess4) : List Word :=
  correct_guesses.flatMap guessList

/-- Model of `available_words = [w for w in words if w not in used_words]`
(identical in `create_guess_model` and `_edit_category_guess`). -/
def availableWords (words : List Word) (correct_guesses : List Guess4) :
    List Word :=
  words.filter (fun w => ¬ w ∈ usedWords correct_guesses)

/-- Python's `sorted` on strings: a deterministic lexicographic sort. -/
def sortWords (l : List Word) : List Word :=
  l.insertionSort (· ≤ ·)

/-- Model of `itertools.combinations l k`: all `k`-element subsequences of `l`, in
lexicographic order of positions (the order `itertools` emits). -/
def combinations : Nat → List α → List (List α)
  | 0, _ => [[]]
  | _ + 1, [] => []
  | k + 1, x :: xs =>
    (combinations k xs).map (fun c => x :: c) ++ combinations (k + 1) xs

/-- Model of `create_guess_model` line 54:
`possible_groups = list(combinations(sorted(available_words), 4))`. -/
def possibleGroups (words : List Word) (correct_guesses : List Guess4) :
    List (List Word) :=
  combinations 4 (sortWords (availableWords words correct_guesses))

/-- Model of `create_guess_model` lines 62-79: when there are incorrect guesses,
drop every combination whose word-set equals one of their word-sets. -/
def filteredGroups (words : List Word) (correct_guesses : List Guess4)
    (incorrect_guesses : List Guess4) : List (List Word) :=
  let possible := possibleGroups words correct_guesses
  match incorrect_guesses with
  | [] => possible
  | _ =>
    possible.filter (fun group =>
      ¬ group.toFinset ∈
        incorrect_guesses.map (fun g => (guessList g).toFinset))

/-- Model of `create_guess_model` lines 83-87: cap the filtered combinations at 500
(the structured-outputs enumeration limit). The result is the candidate
space offered to the oracle. -/
def createGuessCandidates (words : List Word) (correct_guesses : List Guess4)
    (incorrect_guesses : List Guess4) : List (List Word) :=
  let possible := filteredGroups words correct_guesses incorrect_guesses
  if 500 < possible.length then possible.take 500 else possible

/-- Model of `create_revision_model` line 179: the enum of droppable words is the
whole prior guess (`list(prior_guess)`). -/
def priorGuessEnum (prior_guess : Guess4) : List Word :=
  guessList prior_guess

/-- Model of `create_revision_model` line 183: the enum of replacement words
(`[w for w in available_words if w not in prior_guess]`). -/
def replacementWords (prior_guess : Guess4) (available_words : List Word) :
    List Word :=
  available_words.filter (fun w => ¬ w ∈ guessList prior_guess)

/-- The revision candidate space induced by `create_revision_model`: the
oracle fills the two enum-constrained fields independently, so the offered
swaps are all pairs from `priorGuessEnum × replacementWords`. -/
def revisionSwaps (prior_guess : Guess4) (available_words : List Word) :
    List (Word × Word) :=
  (priorGuessEnum prior_guess).flatMap (fun d =>
    (replacementWords prior_guess available_words).map (fun a => (d, a)))

/-! ### `solver.py` -/

/-- The word-set of a guess (`frozenset(guess)` / `set(guess)`). -/
def gset (g : Guess4) : Finset Word := (guessList g).toFinset

/-- Model of `ConnectionsSolver._check_guess`: scan the solutions in order and
return the `(color, theme)` of the first whose word-set equals the guess's
word-set (`None` otherwise). -/
def checkGuess (guess : Guess4) (puzzle : DailyConnections) :
    Option (CategoryColor × String) :=
  (puzzle.solutions.find? (fun s => s.words.toFinset = gset guess)).map
    (fun s => (s.color, s.theme))

/-- Model of the solver's partial-match check (source name
`_check_for_partial_match`): scan the solutions in order and return, for
the first whose word-set meets the guess in exactly 3 words, the common
words together with its theme and color; `None` otherwise. -/
def checkForPartialMatch (guess : Guess4) (puzzle : DailyConnections) :
    Option (Finset Word × String × CategoryColor) :=
  (puzzle.solutions.find?
      (fun s => (gset guess ∩ s.words.toFinset).card = 3)).map
    (fun s => (gset guess ∩ s.words.toFinset, s.theme, s.color))

/-- The three ways `solve` reacts to a scored guess: exact match, 3-of-4
match (`almost` models the PartialMatch outcome), or plain incorrect. -/
inductive GuessOutcome where
  | correct (color : CategoryColor) (theme : String)
  | almost (overlap : Finset Word) (theme : String) (color : CategoryColor)
  | incorrect
deriving DecidableEq

/-- The scoring path of `solve` (lines 358-386): `_check_guess` first,
then `_check_for_partial_match`, otherwise incorrect. -/
def score (guess : Guess4) (puzzle : DailyConnections) : GuessOutcome :=
  match checkGuess guess puzzle with
  | some (color, theme) => GuessOutcome.correct color theme
  | none =>
    match checkForPartialMatch guess puzzle with
    | some (overlap, theme, color) => GuessOutcome.almost overlap theme color
    | none => GuessOutcome.incorrect

/-- Model of `ConnectionsSolver._edit_category_guess` lines 257-278, applied to an
oracle response `(word_to_replace, replacement)`: `list.index` finds the
first occurrence of the word to replace (raising `ValueError`, modelled as
`Except.error`, when absent) and the replacement is written at that index.
The replacement word itself is not validated against the offered
replacement enum. -/
def editCategoryGuess (prior_guess : Guess4)
    (word_to_replace replacement : Word) : Except String Guess4 :=
  match prior_guess with
  | (g1, g2, g3, g4) =>
    if word_to_replace = g1 then Except.ok (replacement, g2, g3, g4)
    else if word_to_replace = g2 then Except.ok (g1, replacement, g3, g4)
    else if word_to_replace = g3 then Except.ok (g1, g2, replacement, g4)
    else if word_to_replace = g4 then Except.ok (g1, g2, g3, replacement)
    else Except.error "ValueError: x not in list"

/-- The mutable solving state of `ConnectionsSolver.solve`:
`correct_guesses`, `wrong_attempts`, `current_category_incorrect`, and the
revision-mode triple `revising_guess` / `current_theme` / `last_guess`. -/
structure SolverState where
  correctGuesses : List Guess4
  wrongAttempts : Nat
  currentIncorrect : List Guess4
  revisingGuess : Bool
  currentTheme : Option String
  lastGuess : Option Guess4
deriving DecidableEq

/-- The state `solve` starts from (lines 326-334). -/
def initState : SolverState :=
  { correctGuesses := []
    wrongAttempts := 0
    currentIncorrect := []
    revisingGuess := false
    currentTheme := none
    lastGuess := none }

/-- The mode test at line 339: a revision guess is made iff
`revising_guess and last_guess and current_theme` is truthy; otherwise the
iteration makes a fresh guess. `true` means revision mode. -/
def guessMode (st : SolverState) : Bool :=
  st.revisingGuess && st.lastGuess.isSome && st.currentTheme.isSome

/-- The state update of one `solve` iteration after scoring a guess
(lines 363-420): on a correct guess append it and clear all per-category
state; on a partial match enter revision mode; on an incorrect guess leave
revision mode; in both non-correct cases bump `wrong_attempts` and record
the guess in `current_category_incorrect`. -/
def updateState (puzzle : DailyConnections) (st : SolverState)
    (guess : Guess4) : SolverState :=
  match checkGuess guess puzzle with
  | some _ =>
    { st with
      correctGuesses := st.correctGuesses ++ [guess]
      currentIncorrect := []
      revisingGuess := false
      currentTheme := none
      lastGuess := none }
  | none =>
    let st1 :=
      match checkForPartialMatch guess puzzle with
      | some (_, theme, _) =>
        { st with
          revisingGuess := true
          currentTheme := some theme
          lastGuess := some guess }
      | none =>
        { st with
          revisingGuess := false
          currentTheme := none
          lastGuess := none }
    { st1 with
      wrongAttempts := st1.wrongAttempts + 1
      currentIncorrect := st1.currentIncorrect ++ [guess] }

/-- The oracle boundary: `fresh` stands for `_get_category_by_word_guess`
(the LLM assembling a fresh 4-word guess) and `revise` for the
`(prior_guess_word_to_replace, word_to_use_as_replacement)` pair returned
when revising. Both may depend on the whole solver state, covering any
adaptive strategy. -/
structure Strategy where
  fresh : SolverState → Guess4
  revise : SolverState → Word × Word

/-- One solve result: `ok (some sol)` is success, `ok none` is the
budget-exhausted `return None`, `error` is an uncaught Python exception. -/
abbrev SolveResult := Except String (Option DailyConnectionsSolution × SolverState)

/-- Model of the `while` loop of `ConnectionsSolver.solve` (lines 336-445), with
the loop expressed as fuelled structural recursion (`solveOk` below shows
fuel 8 always suffices). Each iteration: pick revision or fresh mode,
obtain the guess (revision may raise `ValueError`), score it, update the
state, and `return None` as soon as `wrong_attempts` reaches 4. After the
loop the solution is built from the first four correct guesses (an
`IndexError` if the loop could exit with fewer — `solveOk` shows it
cannot). -/
def solveGo (puzzle : DailyConnections) (strat : Strategy) :
    Nat → SolverState → SolveResult
  | 0, _ => Except.error "fuel exhausted"
  | fuel + 1, st =>
    if st.correctGuesses.length < 4 ∧ st.wrongAttempts < 4 then
      match guessMode st, st.lastGuess with
      | true, some prior =>
        match editCategoryGuess prior (strat.revise st).1 (strat.revise st).2 with
        | Except.error e => Except.error e
        | Except.ok guess =>
          if checkGuess guess puzzle = none ∧
              4 ≤ (updateState puzzle st guess).wrongAttempts then
            Except.ok (none, updateState puzzle st guess)
          else solveGo puzzle strat fuel (updateState puzzle st guess)
      | true, none => Except.error "unreachable: revision mode without last guess"
      | false, _ =>
        if checkGuess (strat.fresh st) puzzle = none ∧
            4 ≤ (updateState puzzle st (strat.fresh st)).wrongAttempts then
          Except.ok (none, updateState puzzle st (strat.fresh st))
        else solveGo puzzle strat fuel (updateState puzzle st (strat.fresh st))
    else
      match st.correctGuesses with
      | c1 :: c2 :: c3 :: c4 :: _ =>
        Except.ok (some ⟨c1, c2, c3, c4⟩, st)
      | _ => Except.error "IndexError: correct guesses incomplete"

/-- Model of `ConnectionsSolver.solve`: run the loop from the initial state. Fuel 8
bounds the iterations: each one grows `correct_guesses` (bounded by 4) or
`wrong_attempts` (bounded by 4). -/
def solve (puzzle : DailyConnections) (strat : Strategy) : SolveResult :=
  solveGo puzzle strat 8 initState

/-! ### Concrete inputs used by witnesses and counterexamples -/

/-- An always-wrong oracle used by witnesses: every fresh guess is the
incorrect group `(cute, fresh, air, mood)`, and a revision request drops
the first word of the prior guess for the word `"x"`. -/
def badStrategy : Strategy :=
  { fresh := fun _ => ("cute", "fresh", "air", "mood")
    revise := fun st =>
      match st.lastGuess with
      | some lg => (lg.1, "x")
      | none => ("", "") }

/-- The 16 words of the example puzzle in `main.py`. -/
def exampleWords : List Word :=
  ["cute", "fresh", "smart", "wise", "air", "mood", "feeling", "quality",
   "bar", "bel", "lux", "mole", "Mermaid", "Prince", "Rascals", "Tramp"]

/-- The example puzzle of `main.py` (2024-10-28). -/
def examplePuzzle : DailyConnections :=
  { date := "2024-10-28"
    words := exampleWords
    solutions :=
      [ { color := CategoryColor.yellow, theme := "sassy"
          words := ["cute", "fresh", "smart", "wise"] }
      , { color := CategoryColor.green, theme := "ambience"
          words := ["air", "mood", "feeling", "quality"] }
      , { color := CategoryColor.blue, theme := "units"
          words := ["bar", "bel", "lux", "mole"] }
      , { color := CategoryColor.purple, theme := "The Little ____"
          words := ["Mermaid", "Prince", "Rascals", "Tramp"] } ] }

/-- A malformed puzzle that passes the pydantic validators of
`models.DailyConnections` (16 unique words, solution words drawn from the
word list) but violates the category-disjointness invariant: the first two
categories share the words `w1, w2, w3`. -/
def overlappingPuzzle : DailyConnections :=
  { date := "2099-01-01"
    words :=
      ["w1", "w2", "w3", "w4", "w5", "w6", "w7", "w8",
       "w9", "w10", "w11", "w12", "w13", "w14", "w15", "w16"]
    solutions :=
      [ { color := CategoryColor.yellow, theme := "A"
          words := ["w1", "w2", "w3", "w4"] }
      , { color := CategoryColor.green, theme := "B"
          words := ["w1", "w2", "w3", "w5"] }
      , { color := CategoryColor.blue, theme := "C"
          words := ["w6", "w7", "w8", "w9"] }
      , { color := CategoryColor.purple, theme := "D"
          words := ["w10", "w11", "w12", "w13"] } ] }

end Connections

namespace Connections

/-! ### Lemmas about `splitOnChar` -/

theorem splitOnChar_ne_nil (sep : Char) (l : List Char) :
    splitOnChar sep l ≠ [] := by
  cases l with
  | nil => simp [splitOnChar]
  | cons c cs =>
    by_cases h : c = sep <;> simp [splitOnChar, h]
    cases hs : splitOnChar sep cs <;> simp

theorem splitOnChar_of_not_mem (sep : Char) (l : List Char) (h : ¬ sep ∈ l) :
    splitOnChar sep l = [l] := by
  induction l with
  | nil => simp [splitOnChar]
  | cons c cs ih =>
    simp only [List.mem_cons, not_or] at h
    have hc : ¬ c = sep := fun hcs => h.1 hcs.symm
    simp [splitOnChar, hc, ih h.2]

theorem splitOnChar_append (sep : Char) (a rest : List Char)
    (h : ¬ sep ∈ a) :
    splitOnChar sep (a ++ sep :: rest) = a :: splitOnChar sep rest := by
  induction a with
  | nil => simp [splitOnChar]
  | cons c cs ih =>
    simp only [List.mem_cons, not_or] at h
    have hc : ¬ c = sep := fun hcs => h.1 hcs.symm
    simp [splitOnChar, hc, ih h.2]

end Connections


namespace Connections

/-- Claim C10: `parse_category_string` returns the tuple of the 4
comma-separated parts when splitting on `','` yields exactly 4 parts and
raises `ValueError` otherwise; and for every 4-tuple of comma-free words,
parsing the comma-join of the tuple returns the tuple itself. -/
theorem parse_category_string_correct :
    (∀ (s : String) (a b c d : String),
      (splitOnChar ',' s.toList).map String.mk = [a, b, c, d] →
      parse_category_string s = Except.ok (a, b, c, d)) ∧
    (∀ s : String, (splitOnChar ',' s.toList).length ≠ 4 →
      ∃ msg, parse_category_string s = Except.error msg) ∧
    (∀ a b c d : String, ¬ ',' ∈ a.toList → ¬ ',' ∈ b.toList →
      ¬ ',' ∈ c.toList → ¬ ',' ∈ d.toList →
      parse_category_string (joinComma a b c d) = Except.ok (a, b, c, d)) := by
  refine ⟨?_, ?_, ?_⟩
  · intro s a b c d h
    have h2 : (splitOnChar ',' s.data).map String.mk = [a, b, c, d] := h
    simp [parse_category_string, h2]
  · intro s h
    rcases h' : (splitOnChar ',' s.toList).map String.mk with
      _ | ⟨a, _ | ⟨b, _ | ⟨c, _ | ⟨d, _ | ⟨e, t⟩⟩⟩⟩⟩ <;>
      [skip; skip; skip; skip;
        (exfalso; apply h; have := congrArg List.length h'; simpa using this);
        skip] <;>
      exact ⟨"Category must contain exactly 4 words, got: " ++ s, by
        have h2 : (splitOnChar ',' s.data).map String.mk = _ := h'
        simp [parse_category_string, h2]⟩
  · intro a b c d ha hb hc hd
    have hsplit : (joinComma a b c d).toList =
        a.toList ++ ',' :: (b.toList ++ ',' :: (c.toList ++ ',' :: d.toList)) := by
      simp [joinComma, String.toList, String.data_append]
    have h1 : splitOnChar ',' (joinComma a b c d).toList =
        [a.toList, b.toList, c.toList, d.toList] := by
      rw [hsplit, splitOnChar_append ',' _ _ ha, splitOnChar_append ',' _ _ hb,
        splitOnChar_append ',' _ _ hc, splitOnChar_of_not_mem ',' _ hd]
    have h2 : splitOnChar ',' (joinComma a b c d).data =
        [a.toList, b.toList, c.toList, d.toList] := h1
    have hmk : ∀ s : String, String.mk s.toList = s := fun _ => rfl
    simp [parse_category_string, h2, hmk]

/-- Witness for C10 at concrete input: parsing the join of
`("air", "mood", "feeling", "quality")` gives the tuple back. -/
theorem parse_category_string_correct_witness :
    parse_category_string (joinComma "air" "mood" "feeling" "quality") =
      Except.ok ("air", "mood", "feeling", "quality") :=
  parse_category_string_correct.2.2 "air" "mood" "feeling" "quality"
    (by decide) (by decide) (by decide) (by decide)

end Connections

namespace Connections

/-- Claim C5, counterexample: The claim that a replacement word outside the
offered replacement set is surfaced as a fatal error is false: with prior
guess `(cute, fresh, smart, bar)` over the example words, `"fresh"` is not
in the offered replacement enum (it sits in the prior guess), yet
`_edit_category_guess` applies the swap `(cute → fresh)` without any
error, even producing a guess with a duplicated word. -/
theorem editCategoryGuess_accepts_outside_replacement :
    ¬ "fresh" ∈ replacementWords ("cute", "fresh", "smart", "bar") exampleWords ∧
    editCategoryGuess ("cute", "fresh", "smart", "bar") "cute" "fresh" =
      Except.ok ("fresh", "fresh", "smart", "bar") := by
  constructor
  · decide
  · rfl

/-- Claim C5, amended: `_edit_category_guess` raises a fatal error
(`ValueError` from `list.index`) exactly when the returned word-to-replace
is not in the prior guess; the returned replacement word is never
validated, so any replacement — inside or outside the offered replacement
set — is applied whenever the word-to-replace is valid. -/
theorem editCategoryGuess_error_iff (prior : Guess4) (d a : Word) :
    (∃ e, editCategoryGuess prior d a = Except.error e) ↔
      ¬ d ∈ guessList prior := by
  obtain ⟨g1, g2, g3, g4⟩ := prior
  simp only [editCategoryGuess]
  split_ifs with h1 h2 h3 h4 <;> simp_all [guessList]

/-- Claim C7: The revision candidate space offered to the oracle is exactly
the set of pairs `(word_to_drop, word_to_add)` with `word_to_drop` in the
prior guess and `word_to_add` among the still-unassigned words excluding
the prior guess; its size is `|prior_guess| · |remaining \ prior_guess|`
(the prior-guess enum always has the 4 tuple slots). The space is a pure
function of its inputs, hence deterministic, and its order is fixed by the
two enum orders. -/
theorem revisionSwaps_spec (words : List Word) (correct_guesses : List Guess4)
    (prior : Guess4) (hw : words.Nodup) :
    (∀ d a : Word,
      (d, a) ∈ revisionSwaps prior (availableWords words correct_guesses) ↔
        (d ∈ guessList prior ∧ a ∈ availableWords words correct_guesses ∧
          ¬ a ∈ guessList prior)) ∧
    (revisionSwaps prior (availableWords words correct_guesses)).length =
      (guessList prior).length *
        ((availableWords words correct_guesses).toFinset \ gset prior).card := by
  have hnodup : (availableWords words correct_guesses).Nodup :=
    hw.filter _
  have hrep : (replacementWords prior (availableWords words correct_guesses)).Nodup :=
    hnodup.filter _
  have key : (replacementWords prior (availableWords words correct_guesses)).toFinset =
      (availableWords words correct_guesses).toFinset \ gset prior := by
    ext x
    simp [replacementWords, gset, Finset.mem_sdiff, List.mem_filter]
  constructor
  · intro d a
    simp [revisionSwaps, priorGuessEnum, replacementWords,
      List.mem_flatMap, List.mem_map, List.mem_filter]
    try tauto
  · rw [← key, List.toFinset_card_of_nodup hrep]
    obtain ⟨g1, g2, g3, g4⟩ := prior
    simp [revisionSwaps, priorGuessEnum, guessList]
    try ring

end Connections


namespace Connections

/-- Membership characterisation of the offered revision swap space. -/
theorem mem_revisionSwaps (prior : Guess4) (avail : List Word) (d a : Word) :
    (d, a) ∈ revisionSwaps prior avail ↔
      (d ∈ guessList prior ∧ a ∈ avail ∧ ¬ a ∈ guessList prior) := by
  simp [revisionSwaps, priorGuessEnum, replacementWords,
    List.mem_flatMap, List.mem_map, List.mem_filter]
  try tauto

/-- Claim C1, counterexample: On the example puzzle, the guess
`(cute, fresh, smart, bar)` is a partial match for "sassy" with locked
words `{cute, fresh, smart}` and all 16 words still unassigned. The
revision generator nevertheless offers the swap `(cute, mood)`, whose
application drops the locked word `cute`; and it offers 48 swap
candidates, not `|remaining_words| - 3 = 13`. -/
theorem revision_candidates_break_locked_words :
    checkForPartialMatch ("cute", "fresh", "smart", "bar") examplePuzzle =
      some ({"cute", "fresh", "smart"}, "sassy", CategoryColor.yellow) ∧
    ("cute", "mood") ∈
      revisionSwaps ("cute", "fresh", "smart", "bar")
        (availableWords exampleWords []) ∧
    editCategoryGuess ("cute", "fresh", "smart", "bar") "cute" "mood" =
      Except.ok ("mood", "fresh", "smart", "bar") ∧
    ¬ "cute" ∈ guessList ("mood", "fresh", "smart", "bar") ∧
    (revisionSwaps ("cute", "fresh", "smart", "bar")
        (availableWords exampleWords [])).length = 48 ∧
    (availableWords exampleWords []).length - 3 = 13 := by
  exact ⟨by decide, by decide, rfl, by decide, by decide, by decide⟩

/-- Claim C1, amended: Every offered revision swap `(d, a)` applies
cleanly: the resulting candidate is the prior guess with the (first)
occurrence of `d` replaced by `a`, so it retains exactly the other three
prior-guess words — which need not include all three locked words, since
`d` ranges over all four prior-guess words. The number of offered swaps
is `4 · |remaining_words \ prior_guess|`, not `|remaining_words| - 3`. -/
theorem revisionSwaps_swap_semantics (prior : Guess4) (avail : List Word)
    (hnd : (guessList prior).Nodup) :
    (∀ d a : Word, (d, a) ∈ revisionSwaps prior avail →
      ∃ g', editCategoryGuess prior d a = Except.ok g' ∧
        ∀ w : Word, w ∈ guessList g' ↔
          ((w ∈ guessList prior ∧ w ≠ d) ∨ w = a)) ∧
    (revisionSwaps prior avail).length =
      4 * (replacementWords prior avail).length := by
  constructor
  · intro d a hmem
    rw [mem_revisionSwaps] at hmem
    obtain ⟨hd, ha, hanot⟩ := hmem
    obtain ⟨g1, g2, g3, g4⟩ := prior
    simp only [guessList, List.mem_cons, List.not_mem_nil, or_false,
      not_or] at hd hanot
    simp only [guessList, List.nodup_cons, List.mem_cons,
      List.not_mem_nil, or_false, not_or, List.nodup_nil, and_true] at hnd
    simp only [editCategoryGuess]
    split_ifs with h1 h2 h3 h4
    · subst h1
      refine ⟨_, rfl, fun w => ?_⟩
      simp only [guessList, List.mem_cons, List.not_mem_nil, or_false]
      constructor
      · rintro (rfl | rfl | rfl | rfl)
        · exact Or.inr rfl
        · exact Or.inl ⟨Or.inr (Or.inl rfl), fun h => hnd.1.1 h.symm⟩
        · exact Or.inl ⟨Or.inr (Or.inr (Or.inl rfl)), fun h => hnd.1.2.1 h.symm⟩
        · exact Or.inl ⟨Or.inr (Or.inr (Or.inr rfl)), fun h => hnd.1.2.2 h.symm⟩
      · rintro (⟨(rfl | rfl | rfl | rfl), hne⟩ | rfl)
        · exact absurd rfl hne
        · exact Or.inr (Or.inl rfl)
        · exact Or.inr (Or.inr (Or.inl rfl))
        · exact Or.inr (Or.inr (Or.inr rfl))
        · exact Or.inl rfl
    · subst h2
      refine ⟨_, rfl, fun w => ?_⟩
      simp only [guessList, List.mem_cons, List.not_mem_nil, or_false]
      constructor
      · rintro (rfl | rfl | rfl | rfl)
        · exact Or.inl ⟨Or.inl rfl, fun h => hnd.1.1 h⟩
        · exact Or.inr rfl
        · exact Or.inl ⟨Or.inr (Or.inr (Or.inl rfl)), fun h => hnd.2.1.1 h.symm⟩
        · exact Or.inl ⟨Or.inr (Or.inr (Or.inr rfl)), fun h => hnd.2.1.2 h.symm⟩
      · rintro (⟨(rfl | rfl | rfl | rfl), hne⟩ | rfl)
        · exact Or.inl rfl
        · exact absurd rfl hne
        · exact Or.inr (Or.inr (Or.inl rfl))
        · exact Or.inr (Or.inr (Or.inr rfl))
        · exact Or.inr (Or.inl rfl)
    · subst h3
      refine ⟨_, rfl, fun w => ?_⟩
      simp only [guessList, List.mem_cons, List.not_mem_nil, or_false]
      constructor
      · rintro (rfl | rfl | rfl | rfl)
        · exact Or.inl ⟨Or.inl rfl, fun h => hnd.1.2.1 h⟩
        · exact Or.inl ⟨Or.inr (Or.inl rfl), fun h => hnd.2.1.1 h⟩
        · exact Or.inr rfl
        · exact Or.inl ⟨Or.inr (Or.inr (Or.inr rfl)), fun h => hnd.2.2.1 h.symm⟩
      · rintro (⟨(rfl | rfl | rfl | rfl), hne⟩ | rfl)
        · exact Or.inl rfl
        · exact Or.inr (Or.inl rfl)
        · exact absurd rfl hne
        · exact Or.inr (Or.inr (Or.inr rfl))
        · exact Or.inr (Or.inr (Or.inl rfl))
    · subst h4
      refine ⟨_, rfl, fun w => ?_⟩
      simp only [guessList, List.mem_cons, List.not_mem_nil, or_false]
      constructor
      · rintro (rfl | rfl | rfl | rfl)
        · exact Or.inl ⟨Or.inl rfl, fun h => hnd.1.2.2 h⟩
        · exact Or.inl ⟨Or.inr (Or.inl rfl), fun h => hnd.2.1.2 h⟩
        · exact Or.inl ⟨Or.inr (Or.inr (Or.inl rfl)), fun h => hnd.2.2.1 h⟩
        · exact Or.inr rfl
      · rintro (⟨(rfl | rfl | rfl | rfl), hne⟩ | rfl)
        · exact Or.inl rfl
        · exact Or.inr (Or.inl rfl)
        · exact Or.inr (Or.inr (Or.inl rfl))
        · exact absurd rfl hne
        · exact Or.inr (Or.inr (Or.inr rfl))
    · exact absurd hd (by tauto)
  · obtain ⟨g1, g2, g3, g4⟩ := prior
    simp [revisionSwaps, priorGuessEnum, guessList]
    try ring

/-- Witness for C1 (amended) at the example puzzle's revision step. -/
theorem revisionSwaps_swap_semantics_witness :
    (revisionSwaps ("cute", "fresh", "smart", "bar")
        (availableWords exampleWords [])).length =
      4 * (replacementWords ("cute", "fresh", "smart", "bar")
        (availableWords exampleWords [])).length :=
  (revisionSwaps_swap_semantics ("cute", "fresh", "smart", "bar")
    (availableWords exampleWords []) (by decide)).2

/-- Claim C2: When a guess scores Incorrect (no exact match, no 3-word
overlap with any category), the state update clears the whole revision
context — `revising_guess`, `current_theme` and `last_guess` — bumps the
wrong-attempt counter, and the next iteration's mode test therefore
selects a fresh guess, never a revision against stale locked words. -/
theorem incorrect_clears_revision (p : DailyConnections) (st : SolverState)
    (g : Guess4) (hc : checkGuess g p = none)
    (hp : checkForPartialMatch g p = none) :
    (updateState p st g).revisingGuess = false ∧
    (updateState p st g).currentTheme = none ∧
    (updateState p st g).lastGuess = none ∧
    (updateState p st g).wrongAttempts = st.wrongAttempts + 1 ∧
    guessMode (updateState p st g) = false := by
  simp [updateState, hc, hp, guessMode]

/-- Witness for C2: the guess `(cute, fresh, air, mood)` is incorrect on
the example puzzle (overlaps of size 2,2,0,0), and updating any state —
here one in revision mode — leaves fresh-guess mode. -/
theorem incorrect_clears_revision_witness :
    guessMode (updateState examplePuzzle
      { initState with
          revisingGuess := true
          currentTheme := some "sassy"
          lastGuess := some ("cute", "fresh", "smart", "bar") }
      ("cute", "fresh", "air", "mood")) = false :=
  (incorrect_clears_revision examplePuzzle _ _ (by decide) (by decide)).2.2.2.2

end Connections

namespace Connections

/-- Witness for C7 on the example puzzle's first revision step. -/
theorem revisionSwaps_spec_witness :
    (revisionSwaps ("cute", "fresh", "smart", "bar")
        (availableWords exampleWords [])).length =
      (guessList ("cute", "fresh", "smart", "bar")).length *
        ((availableWords exampleWords []).toFinset \
          gset ("cute", "fresh", "smart", "bar")).card :=
  (revisionSwaps_spec exampleWords [] ("cute", "fresh", "smart", "bar")
    (by decide)).2

/-- Claim C6, counterexample: On a disjointness-violating puzzle the guess
`(w1, w2, w3, w14)` has a 3-word overlap with both of the first two
categories, yet the scoring path raises no internal error: it silently
returns the first tied category ("A"). -/
theorem tied_overlap_silently_picks_first :
    (∀ s ∈ overlappingPuzzle.solutions.take 2,
      (gset ("w1", "w2", "w3", "w14") ∩ s.words.toFinset).card = 3) ∧
    score ("w1", "w2", "w3", "w14") overlappingPuzzle =
      GuessOutcome.almost {"w1", "w2", "w3"} "A" CategoryColor.yellow := by
  exact ⟨by decide, by decide⟩

/-- Claim C6, amended: `_check_for_partial_match` resolves a 3-word-overlap
tie by silently returning the data of the first matching category in
solution order (the semantics of its linear scan); it returns `None`
exactly when no category has a 3-word overlap, and no invariant-violation
error path exists. -/
theorem checkForPartialMatch_first_match (p : DailyConnections) (g : Guess4) :
    (∀ s : CategorySolution,
      p.solutions.find? (fun s => (gset g ∩ s.words.toFinset).card = 3) =
          some s →
      checkForPartialMatch g p =
        some (gset g ∩ s.words.toFinset, s.theme, s.color)) ∧
    (checkForPartialMatch g p = none ↔
      ∀ s ∈ p.solutions, (gset g ∩ s.words.toFinset).card ≠ 3) := by
  constructor
  · intro s h
    simp [checkForPartialMatch, h]
  · simp [checkForPartialMatch, Option.map_eq_none', List.find?_eq_none]

/-- Witness for C6 (amended) on the malformed two-tie puzzle. -/
theorem checkForPartialMatch_first_match_witness :
    checkForPartialMatch ("w1", "w2", "w3", "w14") overlappingPuzzle =
      some (gset ("w1", "w2", "w3", "w14") ∩
        (["w1", "w2", "w3", "w4"] : List Word).toFinset,
        "A", CategoryColor.yellow) :=
  (checkForPartialMatch_first_match overlappingPuzzle
    ("w1", "w2", "w3", "w14")).1
    ⟨CategoryColor.yellow, "A", ["w1", "w2", "w3", "w4"]⟩ (by decide)

end Connections

namespace Connections

/-- Lemma: `_check_guess` returns `None` iff no category's word-set equals the
guess's word-set. -/
theorem checkGuess_eq_none_iff (g : Guess4) (p : DailyConnections) :
    checkGuess g p = none ↔
      ∀ s ∈ p.solutions, ¬ s.words.toFinset = gset g := by
  simp [checkGuess, Option.map_eq_none', List.find?_eq_none]

/-- A successful `_check_guess` exhibits a category whose word-set equals
the guess's word-set. -/
theorem checkGuess_eq_some_exists (g : Guess4) (p : DailyConnections)
    (c : CategoryColor) (t : String) (h : checkGuess g p = some (c, t)) :
    ∃ s ∈ p.solutions, s.words.toFinset = gset g := by
  simp only [checkGuess, Option.map_eq_some'] at h
  obtain ⟨s, hfind, _⟩ := h
  exact ⟨s, List.mem_of_find?_eq_some hfind,
    by simpa using List.find?_some hfind⟩

/-- Lemma: `_check_for_partial_match` returns `None` iff no category has a
3-word overlap with the guess. -/
theorem checkForPartialMatch_eq_none_iff (g : Guess4) (p : DailyConnections) :
    checkForPartialMatch g p = none ↔
      ∀ s ∈ p.solutions, ¬ (gset g ∩ s.words.toFinset).card = 3 := by
  simp [checkForPartialMatch, Option.map_eq_none', List.find?_eq_none]

/-- A successful `_check_for_partial_match` exhibits a category with a
3-word overlap with the guess. -/
theorem checkForPartialMatch_eq_some_exists (g : Guess4)
    (p : DailyConnections) (ov : Finset Word) (t : String)
    (c : CategoryColor) (h : checkForPartialMatch g p = some (ov, t, c)) :
    ∃ s ∈ p.solutions, (gset g ∩ s.words.toFinset).card = 3 := by
  simp only [checkForPartialMatch, Option.map_eq_some'] at h
  obtain ⟨s, hfind, _⟩ := h
  exact ⟨s, List.mem_of_find?_eq_some hfind,
    by simpa using List.find?_some hfind⟩

/-- Under the puzzle invariants, a guess of 4 distinct words cannot both
equal a category and have a 3-word overlap with a category. -/
theorem exact_match_excludes_overlap3 (p : DailyConnections) (g : Guess4)
    (hv : ValidPuzzle p) (hg : (guessList g).Nodup)
    (he : ∃ s ∈ p.solutions, s.words.toFinset = gset g) :
    ¬ ∃ s ∈ p.solutions, (gset g ∩ s.words.toFinset).card = 3 := by
  have hcard : (gset g).card = 4 := by
    rw [gset, List.toFinset_card_of_nodup hg]
    rfl
  obtain ⟨s1, hs1, he1⟩ := he
  rintro ⟨s2, hs2, h3⟩
  by_cases hss : s1 = s2
  · subst hss
    rw [he1, Finset.inter_self, hcard] at h3
    omega
  · have hdisj := hv.2.2.2.2.1 s1 hs1 s2 hs2 hss
    have hempty : gset g ∩ s2.words.toFinset = ∅ := by
      rw [← he1]
      ext x
      simp only [Finset.mem_inter, List.mem_toFinset,
        Finset.not_mem_empty, iff_false, not_and]
      exact fun hx1 hx2 => hdisj x hx1 hx2
    rw [hempty] at h3
    simp at h3

/-- Claim C3: For a valid puzzle and a 4-distinct-word guess drawn from its
words, the scoring path classifies the guess as Correct iff its word-set
equals some category's word-set, as PartialMatch iff some category meets
it in exactly 3 words, and as Incorrect iff neither holds; the three
outcomes are mutually exclusive and exhaustive, and scoring is a pure
function of `(guess, puzzle)` (hence deterministic). -/
theorem score_classification (p : DailyConnections) (g : Guess4)
    (hv : ValidPuzzle p) (hg : (guessList g).Nodup)
    (_hgp : ∀ w ∈ guessList g, w ∈ p.words) :
    ((∃ s ∈ p.solutions, s.words.toFinset = gset g) ↔
      ∃ c t, score g p = GuessOutcome.correct c t) ∧
    ((∃ s ∈ p.solutions, (gset g ∩ s.words.toFinset).card = 3) ↔
      ∃ ov t c, score g p = GuessOutcome.almost ov t c) ∧
    (score g p = GuessOutcome.incorrect ↔
      ((¬ ∃ s ∈ p.solutions, s.words.toFinset = gset g) ∧
        ¬ ∃ s ∈ p.solutions, (gset g ∩ s.words.toFinset).card = 3)) := by
  rcases hc : checkGuess g p with _ | ⟨c, t⟩
  · rcases hp : checkForPartialMatch g p with _ | ⟨⟨ov, t, c⟩⟩
    · have hs : score g p = GuessOutcome.incorrect := by
        simp [score, hc, hp]
      have hne : ¬ ∃ s ∈ p.solutions, s.words.toFinset = gset g := by
        rw [← not_forall_not]
        intro hcon
        exact hcon fun s => by
          intro hmem
          exact absurd hmem.2 ((checkGuess_eq_none_iff g p).mp hc s hmem.1)
      have hnp : ¬ ∃ s ∈ p.solutions, (gset g ∩ s.words.toFinset).card = 3 := by
        rintro ⟨s, hsm, h3⟩
        exact (checkForPartialMatch_eq_none_iff g p).mp hp s hsm h3
      refine ⟨?_, ?_, ?_⟩
      · constructor
        · intro h; exact absurd h hne
        · rintro ⟨c', t', hct⟩
          rw [hs] at hct
          cases hct
      · constructor
        · intro h; exact absurd h hnp
        · rintro ⟨ov', t', c', hct⟩
          rw [hs] at hct
          cases hct
      · exact ⟨fun _ => ⟨hne, hnp⟩, fun _ => hs⟩
    · have hs : score g p = GuessOutcome.almost ov t c := by
        simp [score, hc, hp]
      have hne : ¬ ∃ s ∈ p.solutions, s.words.toFinset = gset g := by
        rintro ⟨s, hsm, heq⟩
        exact (checkGuess_eq_none_iff g p).mp hc s hsm heq
      have hpex : ∃ s ∈ p.solutions, (gset g ∩ s.words.toFinset).card = 3 :=
        checkForPartialMatch_eq_some_exists g p ov t c hp
      refine ⟨?_, ?_, ?_⟩
      · constructor
        · intro h; exact absurd h hne
        · rintro ⟨c', t', hct⟩
          rw [hs] at hct
          cases hct
      · exact ⟨fun _ => ⟨ov, t, c, hs⟩, fun _ => hpex⟩
      · constructor
        · intro h
          rw [hs] at h
          cases h
        · rintro ⟨_, hn3⟩
          exact absurd hpex hn3
  · have hex : ∃ s ∈ p.solutions, s.words.toFinset = gset g :=
      checkGuess_eq_some_exists g p c t hc
    have hs : score g p = GuessOutcome.correct c t := by
      simp [score, hc]
    have hnp : ¬ ∃ s ∈ p.solutions, (gset g ∩ s.words.toFinset).card = 3 :=
      exact_match_excludes_overlap3 p g hv hg hex
    refine ⟨?_, ?_, ?_⟩
    · exact ⟨fun _ => ⟨c, t, hs⟩, fun _ => hex⟩
    · constructor
      · intro h; exact absurd h hnp
      · rintro ⟨ov', t', c', hct⟩
        rw [hs] at hct
        cases hct
    · constructor
      · intro h
        rw [hs] at h
        cases h
      · rintro ⟨hn, _⟩
        exact absurd hex hn

/-- Witness for C3: the example puzzle is valid and the guess
`(cute, fresh, smart, wise)` is classified Correct. -/
theorem score_classification_witness :
    (∃ s ∈ examplePuzzle.solutions,
      s.words.toFinset = gset ("cute", "fresh", "smart", "wise")) ↔
    ∃ c t, score ("cute", "fresh", "smart", "wise") examplePuzzle =
      GuessOutcome.correct c t :=
  (score_classification examplePuzzle ("cute", "fresh", "smart", "wise")
    (by decide) (by decide) (by decide)).1

end Connections

namespace Connections

/-! ### Combinatorial properties of `combinations` -/

theorem combinations_length (k : Nat) (l : List α) :
    (combinations k l).length = l.length.choose k := by
  induction l generalizing k with
  | nil => cases k <;> simp [combinations]
  | cons x xs ih =>
    cases k with
    | zero => simp [combinations]
    | succ k =>
      simp [combinations, ih, Nat.choose_succ_succ']

theorem sublist_of_mem_combinations {k : Nat} {l c : List α}
    (h : c ∈ combinations k l) : List.Sublist c l := by
  induction l generalizing k c with
  | nil =>
    cases k with
    | zero => simp [combinations] at h; simp [h]
    | succ k => simp [combinations] at h
  | cons x xs ih =>
    cases k with
    | zero =>
      simp [combinations] at h
      simp [h]
    | succ k =>
      simp only [combinations, List.mem_append, List.mem_map] at h
      rcases h with ⟨c', hc', rfl⟩ | h
      · exact List.Sublist.cons₂ x (ih hc')
      · exact List.Sublist.cons x (ih h)

theorem length_of_mem_combinations {k : Nat} {l c : List α}
    (h : c ∈ combinations k l) : c.length = k := by
  induction l generalizing k c with
  | nil =>
    cases k with
    | zero => simp [combinations] at h; simp [h]
    | succ k => simp [combinations] at h
  | cons x xs ih =>
    cases k with
    | zero =>
      simp [combinations] at h
      simp [h]
    | succ k =>
      simp only [combinations, List.mem_append, List.mem_map] at h
      rcases h with ⟨c', hc', rfl⟩ | h
      · simp [ih hc']
      · exact ih h

/-- Two sublists of a duplicate-free list that are permutations of each
other are equal. -/
theorem sublist_eq_of_perm {l c₁ c₂ : List α} (hl : l.Nodup)
    (h1 : List.Sublist c₁ l) (h2 : List.Sublist c₂ l)
    (hp : List.Perm c₁ c₂) : c₁ = c₂ := by
  induction l generalizing c₁ c₂ with
  | nil =>
    rw [List.sublist_nil.mp h1, List.sublist_nil.mp h2]
  | cons x xs ih =>
    rw [List.nodup_cons] at hl
    cases h1 with
    | cons _ h1' =>
      cases h2 with
      | cons _ h2' => exact ih hl.2 h1' h2' hp
      | cons₂ _ h2' =>
        exfalso
        have hx : x ∈ c₁ := hp.symm.subset (List.mem_cons_self x _)
        exact hl.1 (h1'.subset hx)
    | cons₂ _ h1' =>
      cases h2 with
      | cons _ h2' =>
        exfalso
        have hx : x ∈ c₂ := hp.subset (List.mem_cons_self x _)
        exact hl.1 (h2'.subset hx)
      | cons₂ _ h2' =>
        rw [ih hl.2 h1' h2' (List.Perm.cons_inv hp)]

theorem combinations_nodup {k : Nat} {l : List α} (hl : l.Nodup) :
    (combinations k l).Nodup := by
  induction l generalizing k with
  | nil => cases k <;> simp [combinations]
  | cons x xs ih =>
    rw [List.nodup_cons] at hl
    cases k with
    | zero => simp [combinations]
    | succ k =>
      refine List.Nodup.append ((ih hl.2).map ?_) (ih hl.2) ?_
      · intro c₁ c₂ h
        exact List.tail_eq_of_cons_eq h
      · intro c hc1 hc2
        simp only [List.mem_map] at hc1
        obtain ⟨c', _, rfl⟩ := hc1
        exact hl.1 ((sublist_of_mem_combinations hc2).subset
          (List.mem_cons_self x c'))

/-- Over a duplicate-free input, distinct emitted combinations have
distinct word-sets. -/
theorem combinations_pairwise_ne_toFinset [DecidableEq α] {k : Nat}
    {l : List α} (hl : l.Nodup) :
    (combinations k l).Pairwise (fun a b => a.toFinset ≠ b.toFinset) := by
  refine List.Pairwise.imp_of_mem ?_ (combinations_nodup hl)
  intro a b ha hb hne heq
  apply hne
  have hna : a.Nodup := (sublist_of_mem_combinations ha).nodup hl
  have hnb : b.Nodup := (sublist_of_mem_combinations hb).nodup hl
  exact sublist_eq_of_perm hl (sublist_of_mem_combinations ha)
    (sublist_of_mem_combinations hb)
    (List.perm_of_nodup_nodup_toFinset_eq hna hnb heq)

/-- With no solved categories there is no filtering of available words. -/
theorem availableWords_nil (words : List Word) :
    availableWords words [] = words := by
  simp [availableWords, usedWords]

end Connections

namespace Connections

/-- Claim C8: For a full 16-word puzzle with no solved categories and no
exclusions, the candidate generator's pre-cap combination list
(`possible_groups`) has `C(16,4) = 1820` entries, each a 4-element
duplicate-free subset of the input, pairwise distinct as word-sets; it is
computed by a fixed deterministic recipe — combinations, in standard
combinatorial order, of the lexicographically sorted input. -/
theorem possibleGroups_full (words : List Word) (hn : words.Nodup)
    (hl : words.length = 16) :
    (possibleGroups words []).length = 1820 ∧
    (∀ c ∈ possibleGroups words [],
      c.length = 4 ∧ c.Nodup ∧ ∀ w ∈ c, w ∈ words) ∧
    (possibleGroups words []).Pairwise (fun a b => a.toFinset ≠ b.toFinset) ∧
    possibleGroups words [] = combinations 4 (sortWords words) ∧
    (sortWords words).Sorted (· ≤ ·) := by
  have ha : availableWords words [] = words := availableWords_nil words
  have hperm : List.Perm (sortWords words) words :=
    List.perm_insertionSort _ words
  have hsn : (sortWords words).Nodup := hperm.nodup_iff.mpr hn
  have hslen : (sortWords words).length = 16 := by
    rw [hperm.length_eq, hl]
  have hdef : possibleGroups words [] = combinations 4 (sortWords words) := by
    rw [possibleGroups, ha]
  refine ⟨?_, ?_, ?_, hdef, List.sorted_insertionSort _ words⟩
  · rw [hdef, combinations_length, hslen]
    decide
  · intro c hc
    rw [hdef] at hc
    refine ⟨length_of_mem_combinations hc,
      (sublist_of_mem_combinations hc).nodup hsn, fun w hw => ?_⟩
    exact hperm.subset ((sublist_of_mem_combinations hc).subset hw)
  · rw [hdef]
    exact combinations_pairwise_ne_toFinset hsn

/-- Witness for C8: the example puzzle's 16 words yield 1820 pre-cap
candidate groups. -/
theorem possibleGroups_full_witness :
    (possibleGroups exampleWords []).length = 1820 :=
  (possibleGroups_full exampleWords (by decide) (by decide)).1

/-- Claim C9: The exclusion filter removes exactly the combinations whose
word-set equals that of a previously rejected guess; the generator then
returns at most 500 candidates, and what it returns is a prefix of the
uncapped exclusion-filtered list (hence preserves its relative order). -/
theorem createGuessCandidates_spec (words : List Word)
    (correct_guesses incorrect_guesses : List Guess4) :
    (createGuessCandidates words correct_guesses incorrect_guesses).length ≤
        500 ∧
    (createGuessCandidates words correct_guesses incorrect_guesses) <+:
      filteredGroups words correct_guesses incorrect_guesses ∧
    (∀ g, g ∈ filteredGroups words correct_guesses incorrect_guesses ↔
      (g ∈ possibleGroups words correct_guesses ∧
        ¬ ∃ e ∈ incorrect_guesses,
          g.toFinset = (guessList e).toFinset)) := by
  refine ⟨?_, ?_, ?_⟩
  · rw [createGuessCandidates]
    split_ifs with h
    · simp [List.length_take]
    · exact Nat.le_of_not_lt h
  · rw [createGuessCandidates]
    split_ifs with h
    · exact ⟨_, List.take_append_drop 500 _⟩
    · exact ⟨[], List.append_nil _⟩
  · intro g
    cases incorrect_guesses with
    | nil => simp [filteredGroups]
    | cons i is =>
      simp only [filteredGroups, List.mem_filter, List.mem_map, decide_not,
        Bool.not_eq_true', decide_eq_false_iff_not, List.mem_cons]
      constructor
      · rintro ⟨hmem, hnot⟩
        refine ⟨hmem, ?_⟩
        rintro ⟨e, he, heq⟩
        exact hnot ⟨e, he, heq.symm⟩
      · rintro ⟨hmem, hnot⟩
        refine ⟨hmem, ?_⟩
        rintro ⟨e, he, heq⟩
        exact hnot ⟨e, he, heq.symm⟩

end Connections

namespace Connections

/-- When the word to replace is in the prior guess, `_edit_category_guess`
succeeds (no `ValueError`). -/
theorem editCategoryGuess_ok_of_mem (prior : Guess4) (d a : Word)
    (h : d ∈ guessList prior) :
    ∃ g', editCategoryGuess prior d a = Except.ok g' := by
  obtain ⟨g1, g2, g3, g4⟩ := prior
  simp only [guessList, List.mem_cons, List.not_mem_nil, or_false] at h
  simp only [editCategoryGuess]
  split_ifs with h1 h2 h3 h4
  · exact ⟨_, rfl⟩
  · exact ⟨_, rfl⟩
  · exact ⟨_, rfl⟩
  · exact ⟨_, rfl⟩
  · exact absurd h (by tauto)

/-- A correct guess appends to `correct_guesses` and leaves
`wrong_attempts` unchanged. -/
theorem updateState_of_checkGuess_some (p : DailyConnections)
    (st : SolverState) (g : Guess4) (ct : CategoryColor × String)
    (h : checkGuess g p = some ct) :
    (updateState p st g).correctGuesses = st.correctGuesses ++ [g] ∧
    (updateState p st g).wrongAttempts = st.wrongAttempts := by
  simp [updateState, h]

/-- A non-correct guess leaves `correct_guesses` unchanged and increments
`wrong_attempts`. -/
theorem updateState_of_checkGuess_none (p : DailyConnections)
    (st : SolverState) (g : Guess4) (h : checkGuess g p = none) :
    (updateState p st g).correctGuesses = st.correctGuesses ∧
    (updateState p st g).wrongAttempts = st.wrongAttempts + 1 := by
  rcases hp : checkForPartialMatch g p with _ | ⟨ov, t, c⟩ <;>
    simp [updateState, h, hp]

/-- Revision mode implies a recorded last guess. -/
theorem guessMode_true_lastGuess (st : SolverState)
    (h : guessMode st = true) : ∃ lg, st.lastGuess = some lg := by
  simp only [guessMode, Bool.and_eq_true, Option.isSome_iff_exists] at h
  exact h.1.2

/-- The solve loop with enough fuel, started below the budget, reaches a
terminal outcome: either `None` with the wrong-attempt budget exactly
exhausted and categories unsolved, or a solution with all 4 categories
solved and the budget not exhausted. The oracle may be any strategy whose
revision answer drops a word of the recorded prior guess. -/
theorem solveGo_reaches_terminal (p : DailyConnections) (strat : Strategy)
    (hconf : ∀ st lg, st.lastGuess = some lg →
      (strat.revise st).1 ∈ guessList lg) :
    ∀ fuel : Nat, ∀ st : SolverState,
      (4 - st.correctGuesses.length) + (4 - st.wrongAttempts) ≤ fuel →
      st.wrongAttempts < 4 → st.correctGuesses.length ≤ 4 →
      (∃ st', solveGo p strat fuel st = Except.ok (none, st') ∧
        st'.wrongAttempts = 4 ∧ st'.correctGuesses.length < 4) ∨
      (∃ sol st', solveGo p strat fuel st = Except.ok (some sol, st') ∧
        st'.correctGuesses.length = 4 ∧ st'.wrongAttempts < 4) := by
  intro fuel
  induction fuel with
  | zero => intro st hm hw _; omega
  | succ fuel ih =>
    intro st hm hw hl
    by_cases hcond : st.correctGuesses.length < 4 ∧ st.wrongAttempts < 4
    · have key : ∀ guess : Guess4,
          (∃ st', (if checkGuess guess p = none ∧
                4 ≤ (updateState p st guess).wrongAttempts then
              Except.ok (none, updateState p st guess)
            else solveGo p strat fuel (updateState p st guess)) =
              Except.ok (none, st') ∧
            st'.wrongAttempts = 4 ∧ st'.correctGuesses.length < 4) ∨
          (∃ sol st', (if checkGuess guess p = none ∧
                4 ≤ (updateState p st guess).wrongAttempts then
              Except.ok (none, updateState p st guess)
            else solveGo p strat fuel (updateState p st guess)) =
              Except.ok (some sol, st') ∧
            st'.correctGuesses.length = 4 ∧ st'.wrongAttempts < 4) := by
        intro guess
        rcases hc : checkGuess guess p with _ | ct
        · obtain ⟨hcor, hwr⟩ := updateState_of_checkGuess_none p st guess hc
          by_cases hw3 : st.wrongAttempts = 3
          · rw [if_pos ⟨rfl, by omega⟩]
            left
            refine ⟨_, rfl, by omega, ?_⟩
            rw [hcor]
            exact hcond.1
          · rw [if_neg ?_]
            · exact ih (updateState p st guess)
                (by rw [hcor, hwr]; omega) (by omega) (by rw [hcor]; omega)
            · rintro ⟨-, hge⟩
              rw [hwr] at hge
              omega
        · obtain ⟨hcor, hwr⟩ := updateState_of_checkGuess_some p st guess ct hc
          have hlen : (updateState p st guess).correctGuesses.length =
              st.correctGuesses.length + 1 := by
            rw [hcor, List.length_append]
            rfl
          rw [if_neg (by simp [hc])]
          exact ih (updateState p st guess)
            (by rw [hlen, hwr]; omega) (by omega) (by rw [hlen]; omega)
      simp only [solveGo]
      rw [if_pos hcond]
      split
      · rename_i prior hmode hlast
        obtain ⟨g', hg'⟩ := editCategoryGuess_ok_of_mem prior
          (strat.revise st).1 (strat.revise st).2 (hconf st prior hlast)
        rw [hg']
        exact key g'
      · rename_i hmode hlast
        obtain ⟨lg, hlg⟩ := guessMode_true_lastGuess st hmode
        rw [hlg] at hlast
        cases hlast
      · exact key (strat.fresh st)
    · have h4 : 4 ≤ st.correctGuesses.length := by omega
      rcases hsc : st.correctGuesses with
        _ | ⟨c1, _ | ⟨c2, _ | ⟨c3, _ | ⟨c4, rest⟩⟩⟩⟩ <;>
        rw [hsc] at h4 <;> try simp at h4
      right
      refine ⟨⟨c1, c2, c3, c4⟩, st, ?_, by omega, by omega⟩
      simp only [solveGo]
      rw [if_neg hcond, hsc]

/-- Claim C4: For every puzzle and every oracle strategy that answers
revision requests from the recorded prior guess, `solve` reaches a
terminal outcome — a full 4-category solution, or `None` — never an
uncaught exception; the wrong-attempt counter never exceeds 4, and when
it reaches 4 before all 4 categories are solved, `solve` returns `None`
(and `None` is returned only then). -/
theorem solve_terminates (p : DailyConnections) (strat : Strategy)
    (hconf : ∀ st lg, st.lastGuess = some lg →
      (strat.revise st).1 ∈ guessList lg) :
    (∃ st', solve p strat = Except.ok (none, st') ∧
      st'.wrongAttempts = 4 ∧ st'.correctGuesses.length < 4) ∨
    (∃ sol st', solve p strat = Except.ok (some sol, st') ∧
      st'.correctGuesses.length = 4 ∧ st'.wrongAttempts < 4) :=
  solveGo_reaches_terminal p strat hconf 8 initState
    (by simp [initState]) (by simp [initState]) (by simp [initState])

/-- Witness for C4: on the example puzzle the always-wrong strategy
reaches a terminal outcome within the budget. -/
theorem solve_terminates_witness :
    (∃ st', solve examplePuzzle badStrategy = Except.ok (none, st') ∧
      st'.wrongAttempts = 4 ∧ st'.correctGuesses.length < 4) ∨
    (∃ sol st', solve examplePuzzle badStrategy = Except.ok (some sol, st') ∧
      st'.correctGuesses.length = 4 ∧ st'.wrongAttempts < 4) :=
  solve_terminates examplePuzzle badStrategy
    (by
      intro st lg h
      simp [badStrategy, h, guessList])

end Connections
